import Mathlib

/-!
Verification of the despasito thermodynamics core
(`despasito/thermodynamics/calc_newyi.py` and `calc_types.py`).

Python floats are modelled by exact rationals; a float slot that may hold
`np.nan` is modelled by `Option ℚ` with `none` for NaN.  External
collaborators (the EOS object, scipy's spline and solver routines) enter the
embedding as explicit function parameters, so every theorem quantifies over
their behaviour.
-/

namespace Despasito

/-- Python `max(l)` on a nonempty list.  The default value for `[]` is never
used: every call site is guarded by a nonemptiness check in the source. -/
def listMax : List ℚ → ℚ
  | [] => 0
  | x :: xs => xs.foldl max x

/-- Output of `PvsV_spline(vlist, Plist - P)` (calc_newyi.py lines 222-256):
`Pv` is the smoothed spline of the shifted pressure curve as a function of
specific volume, `roots` its roots in increasing specific-volume order,
`extrema` the retained extrema locations (the source keeps at most the first
two). -/
structure SmoothedCurve where
  Pv : ℚ → ℚ
  roots : List ℚ
  extrema : List ℚ

/-- Root-classification stage of `calc_rhov` (calc_newyi.py lines 441-474):
the branch on the root count that selects the coarse vapor density and the
flag.  The result is `none` exactly when no branch of the source assigns
`flag`/`rho_tmp` (Python would then raise NameError at the following
`if flag in [0,2]` line).  A density of `none` models `np.nan`. -/
def calc_rhov_coarse (P : ℚ) (c : SmoothedCurve) : Option (Option ℚ × ℕ) :=
  match c.roots with
  | [] => some (none, 3)
  | [r0] =>
      if c.extrema = [] then some (some (1 / r0), 2)
      else if c.Pv r0 + P > c.Pv (listMax c.extrema) + P then some (some (1 / r0), 1)
      else if 1 < c.extrema.length then some (some (1 / r0), 0)
      else none
  | [r0, _] =>
      if c.Pv r0 + P < 0 then some (some (1 / r0), 1)
      else some (none, 4)
  | _ :: _ :: r2 :: _ => some (some (1 / r2), 0)

/-- Root-classification stage of `calc_rhol` (calc_newyi.py lines 526-555);
same conventions as `calc_rhov_coarse`.  In the two-root case both the `if`
and the `else` arm of the source assign flag 1 and the reciprocal of the
first root (they differ only in the log message). -/
def calc_rhol_coarse (P : ℚ) (c : SmoothedCurve) : Option (Option ℚ × ℕ) :=
  match c.roots with
  | [] => some (none, 3)
  | [r0, _] =>
      if c.Pv r0 + P < 0 then some (some (1 / r0), 1)
      else some (some (1 / r0), 1)
  | [r0] =>
      if c.extrema = [] then some (some (1 / r0), 2)
      else if c.Pv r0 + P > c.Pv (listMax c.extrema) + P then some (some (1 / r0), 1)
      else if 1 < c.extrema.length then some (some (1 / r0), 0)
      else none
  | r0 :: _ :: _ :: _ => some (some (1 / r0), 1)

/-- Flag column of the spec §4.3 precedence table for the vapor search, as
amended: with one root and exactly one extremum whose liquid condition fails,
the source assigns no flag (`none`); all other rows follow the table.
This definition follows the amended claim's words, for comparison with
`calc_rhov_coarse`. -/
def specFlagV_amended (P : ℚ) (c : SmoothedCurve) : Option ℕ :=
  if c.roots.length = 0 then some 3
  else if c.roots.length = 1 then
    if c.extrema.length = 0 then some 2
    else if c.Pv c.roots.headI + P > c.Pv (listMax c.extrema) + P then some 1
    else if 2 ≤ c.extrema.length then some 0
    else none
  else if c.roots.length = 2 then
    if c.Pv c.roots.headI + P < 0 then some 1 else some 4
  else some 0

/-- Flag column of the spec §4.3 precedence table for the liquid search, as
amended: the one-root rows behave as in `specFlagV_amended`; with two roots
the liquid search always reports flag 1 (never the table's 4); with three or
more roots it reports flag 1.  This definition follows the amended claim's
words, for comparison with `calc_rhol_coarse`. -/
def specFlagL_amended (P : ℚ) (c : SmoothedCurve) : Option ℕ :=
  if c.roots.length = 0 then some 3
  else if c.roots.length = 1 then
    if c.extrema.length = 0 then some 2
    else if c.Pv c.roots.headI + P > c.Pv (listMax c.extrema) + P then some 1
    else if 2 ≤ c.extrema.length then some 0
    else none
  else if c.roots.length = 2 then some 1
  else some 1

/-- Refinement stage of `calc_rhov` (calc_newyi.py lines 476-481): for flags
0 and 2 the coarse density is polished by a bracketed `brentq` or a `hybr`
root solve on `Pdiff`; `refine` abstracts that numeric solve.  The flag is
never changed by this stage. -/
def calc_rhov_refined (refine : ℚ → ℚ) (P : ℚ) (c : SmoothedCurve) :
    Option (Option ℚ × ℕ) :=
  match calc_rhov_coarse P c with
  | none => none
  | some (rho, flag) =>
      if flag = 0 ∨ flag = 2 then some (Option.map refine rho, flag)
      else some (rho, flag)

/-- `calc_phiv` (calc_newyi.py lines 606-642): computes the vapor density and
flag, then either substitutes a unit fugacity-coefficient vector (flag 4,
ideal gas: the EOS chemical potential is not called) or applies the EOS
chemical-potential routine.  `chempotExp` abstracts
`np.exp(eos.chemicalpotential(P, [rhov], yi, T))`; it receives the density
(`none` = NaN) so NaN propagation stays visible. `yiLen` is `len(yi)`. -/
def calc_phiv (chempotExp : Option ℚ → List (Option ℚ)) (yiLen : ℕ)
    (refine : ℚ → ℚ) (P : ℚ) (c : SmoothedCurve) :
    Option (List (Option ℚ) × Option ℚ × ℕ) :=
  match calc_rhov_refined refine P c with
  | none => none
  | some (rhov, flagv) =>
      if flagv = 4 then some (List.replicate yiLen (some 1), rhov, flagv)
      else some (chempotExp rhov, rhov, flagv)

/-- Outer-loop objective `solve_P_xiT` (calc_newyi.py lines 1304-1352).  Its
first statement returns the constant `10.0` for any negative trial pressure;
`rest` abstracts the remainder of the body (liquid fugacity, inner
composition loop, vapor fugacity and the mass-balance objective). -/
def solve_P_xiT (rest : ℚ → ℚ) (P : ℚ) : ℚ :=
  if P < 0 then 10 else rest P

/-- Outer-loop objective `solve_P_yiT` (calc_newyi.py lines 1359-1404), with
the same negative-pressure guard as `solve_P_xiT`. -/
def solve_P_yiT (rest : ℚ → ℚ) (P : ℚ) : ℚ :=
  if P < 0 then 10 else rest P

/-- Result tuple of the per-point workers in calc_types.py: pressure, the
other phase's composition, vapor flag, liquid flag, residual objective.
`none` models `np.nan` slots. -/
structure PointResult where
  P : Option ℚ
  comp : List (Option ℚ)
  flagv : ℕ
  flagl : ℕ
  obj : Option ℚ
deriving DecidableEq

/-- The NaN-filled failure tuple
`[np.nan, np.nan*np.ones(len(xi)), 3, 3, np.nan]` built in the `except`
branch of both per-point workers (calc_types.py lines 173 and 336). -/
def nanResult (n : ℕ) : PointResult :=
  ⟨none, List.replicate n none, 3, 3, none⟩

/-- `_phase_xiT_wrapper` (calc_types.py lines 156-177): the per-point worker
runs the equilibrium calculation and catches every exception, converting it
into the NaN-filled tuple.  `inner` abstracts the try-block body
(`calc_Psat` or `calc_xT_phase`), whose successful value is the tuple
(P, yi, flagv, flagl, obj); `n` is `len(xi)`. -/
def phase_xiT_wrapper {ε : Type} (n : ℕ)
    (inner : Except ε (ℚ × List ℚ × ℕ × ℕ × ℚ)) : PointResult :=
  match inner with
  | Except.ok r => ⟨some r.1, r.2.1.map some, r.2.2.1, r.2.2.2.1, some r.2.2.2.2⟩
  | Except.error _ => nanResult n

/-- `_phase_yiT_wrapper` (calc_types.py lines 319-340): as
`phase_xiT_wrapper`, but the try-block value carries (P, xi, flagl, flagv,
obj) and the worker returns (P, xi, flagv, flagl, obj). -/
def phase_yiT_wrapper {ε : Type} (n : ℕ)
    (inner : Except ε (ℚ × List ℚ × ℕ × ℕ × ℚ)) : PointResult :=
  match inner with
  | Except.ok r => ⟨some r.1, r.2.1.map some, r.2.2.2.1, r.2.2.1, some r.2.2.2.2⟩
  | Except.error _ => nanResult n

/-- `MultiprocessingJob.serial_job`: maps the worker over the batch inputs in
order. -/
def serial_job {α β : Type} (f : α → β) (inputs : List α) : List β :=
  inputs.map f

/-- Branch outcome of `calc_Psat` (calc_newyi.py lines 296-366): the purity
guard, the supercritical check, or the Maxwell-construction search (a scipy
`minimize_scalar`, not modelled further since the claims only distinguish
the branches). -/
inductive PsatOutcome
  | domainError
  | supercritical
  | maxwell
deriving DecidableEq

/-- `np.diff`: consecutive differences of a list. -/
def diffList (l : List ℚ) : List ℚ :=
  List.zipWith (fun x y => y - x) l l.tail

/-- `np.argwhere(l > 0)`: the indices of the strictly positive entries. -/
def argwherePos (l : List ℚ) : List ℕ :=
  (List.range l.length).filter (fun i => decide (0 < l.getD i 0))

/-- Branch structure of `calc_Psat`: the purity check
(`np.count_nonzero(xi) != 1` raises), then
`tmp = np.argwhere(np.diff(Plist) > 0)` with `if not tmp.any()` selecting
the supercritical NaN branch (`Psat = np.nan`, `roots = [1,1,1]`, no Maxwell
search); `tmp.any()` on an index array tests for a nonzero index. -/
def calc_Psat_branch (xi Plist : List ℚ) : PsatOutcome :=
  if xi.countP (fun x => decide (x ≠ 0)) ≠ 1 then PsatOutcome.domainError
  else if ((argwherePos (diffList Plist)).any fun i => decide (i ≠ 0)) = false then
    PsatOutcome.supercritical
  else PsatOutcome.maxwell

/-- How `calc_Prange_xi` can abort: the dead `raise ValueError` at
calc_newyi.py line 768, or the NameError from reading the never-assigned
`Pguess` at line 785 after the `for` loop runs out. -/
inductive PrangeErr
  | valueError
  | nameError
deriving DecidableEq

/-- Successful return of `calc_Prange_xi`: `Prange = Parray[-2:]` with the
associated objective values `ObjArray[-2:]` and the linear-interpolation
pressure guess. -/
structure PrangeOk where
  Pmin : ℚ
  Pmax : ℚ
  objMin : ℚ
  objMax : ℚ
  Pguess : ℚ
deriving DecidableEq

/-- Iterations `z = 2, ..., maxiter-1` of the `for z in range(maxiter)` loop
of `calc_Prange_xi` (calc_newyi.py lines 735-789).  `Parray`/`ObjArray` hold
the Python lists most-recent-first, so `[-1]`/`[-2]` are the first two
entries.  `obj` abstracts one objective evaluation
`np.sum(xi*phil/phiv) - 1` (it threads the `yi_range` warm-start state σ).
`fuel` counts the remaining loop iterations (`maxiter - z`); when it reaches
zero the Python loop ends and line 785 reads the unassigned `Pguess`,
raising NameError.  The `z = maxiter` test mirrors line 767's
`elif z == maxiter`. -/
def prangeGo {σ : Type} (obj : σ → ℚ → σ × ℚ) (maxiter : ℕ) :
    ℕ → ℕ → σ → List ℚ → List ℚ → Except PrangeErr PrangeOk
  | 0, _, _, _, _ => Except.error PrangeErr.nameError
  | fuel + 1, z, s, Parray, ObjArray =>
      match Parray, ObjArray with
      | pLast :: pPrev :: pRest, oLast :: oPrev :: oRest =>
          if |oPrev + oLast| < |oPrev - oLast| then
            let slope := (oLast - oPrev) / (pLast - pPrev)
            let intercept := oLast - slope * pLast
            Except.ok ⟨pPrev, pLast, oPrev, oLast, -intercept / slope⟩
          else if z = maxiter then Except.error PrangeErr.valueError
          else
            let p := 2 * pLast
            let so := obj s p
            prangeGo obj maxiter fuel (z + 1) so.1
              (p :: pLast :: pPrev :: pRest) (so.2 :: oLast :: oPrev :: oRest)
      | _, _ => Except.error PrangeErr.nameError

/-- `calc_Prange_xi` (calc_newyi.py lines 689-789).  Iterations `z = 0` and
`z = 1` evaluate the objective at `Pmin` and at the liquid-curve local
maximum `Pmax`; from `z = 2` on, `prangeGo` checks
`tmp_dif > tmp_sum` (strict sign change) and otherwise doubles the last
pressure.  `maxiter` is hardcoded to 200 in the source. -/
def calc_Prange_xi {σ : Type} (obj : σ → ℚ → σ × ℚ) (s0 : σ)
    (Pmin Pmax : ℚ) : Except PrangeErr PrangeOk :=
  let a := obj s0 Pmin
  let b := obj a.1 Pmax
  prangeGo obj 200 198 2 b.1 [Pmax, Pmin] [b.2, a.2]

/-- The constant objective `1`: a run on which no sign change can ever be
found, exhausting the doubling budget of `calc_Prange_xi`. -/
def constObj : Unit → ℚ → Unit × ℚ := fun s _ => (s, 1)

/-- A sign-changing objective: `1` at pressures up to 1000 and `-1` above,
so `calc_Prange_xi` brackets immediately. -/
def signObj : Unit → ℚ → Unit × ℚ :=
  fun s p => (s, if p ≤ 1000 then 1 else -1)

/-- How the composition inner loops abort: the NameError raised when the
exhaustion warning (calc_newyi.py line 974 resp. 1057) reads `ind_tmp`,
which is assigned only two lines later. -/
inductive InnerErr
  | nameError
deriving DecidableEq

/-- Python `l / np.sum(l)`. -/
def pynormalize (l : List ℚ) : List ℚ :=
  l.map (fun x => x / l.sum)

/-- One pass of the `for z in range(maxiter)` loop shared by `solve_yi_xiT`
and `solve_xi_yiT` (calc_newyi.py lines 941-968 resp. 1028-1051): normalize
the guess, produce the predicted mole numbers `step yi`
(abstracting `xi * phil / phiv` together with its fugacity evaluation and
the `find_new_yi` contingency), and stop when the predicted mole-number sum
changed by less than `tol` since the previous iterate; otherwise renormalize
and continue.  `fuel` is the number of iterations left after the current one
(`maxiter - 1 - z`).  Returns the exit iteration index `z`, the final guess
`yi`, and the final prediction `yinew`. -/
def innerGo (step : List ℚ → List ℚ) (tol : ℚ) :
    ℕ → ℕ → List ℚ → ℚ → ℕ × List ℚ × List ℚ
  | 0, z, yi, yiTotal =>
      let yiN := pynormalize yi
      let yinew := step yiN
      if |yinew.sum - yiTotal| < tol then (z, yiN, yinew)
      else (z, pynormalize yinew, yinew)
  | fuel + 1, z, yi, yiTotal =>
      let yiN := pynormalize yi
      let yinew := step yiN
      if |yinew.sum - yiTotal| < tol then (z, yiN, yinew)
      else innerGo step tol fuel (z + 1) (pynormalize yinew) yinew.sum

/-- Shared body of `solve_yi_xiT`/`solve_xi_yiT` after the loop
(calc_newyi.py lines 970-979 resp. 1053-1062): when the exit index equals
`maxiter - 1` — the budget was exhausted, or convergence happened on the very
last pass — the warning line reads `ind_tmp` before its assignment and
Python raises NameError; otherwise the function returns the last normalized
guess `yi`.  With `maxiter = 0` the loop never runs and `yinew /= ...`
itself hits an unassigned `yinew`. -/
def innerLoopRun (step : List ℚ → List ℚ) (yi0 : List ℚ) (maxiter : ℕ)
    (tol : ℚ) : Except InnerErr (List ℚ) :=
  if maxiter = 0 then Except.error InnerErr.nameError
  else
    let yiInit := pynormalize yi0
    let r := innerGo step tol (maxiter - 1) 0 yiInit yiInit.sum
    if r.1 = maxiter - 1 then Except.error InnerErr.nameError
    else Except.ok r.2.1

/-- `solve_yi_xiT` (calc_newyi.py lines 899-979), default `maxiter=15`,
`tol=1e-6`; `step` abstracts `xi * phil / calc_phiv(P, T, yi)[0]` with the
`find_new_yi` contingency folded in. -/
def solve_yi_xiT (step : List ℚ → List ℚ) (yi0 : List ℚ) (maxiter : ℕ)
    (tol : ℚ) : Except InnerErr (List ℚ) :=
  innerLoopRun step yi0 maxiter tol

/-- `solve_xi_yiT` (calc_newyi.py lines 986-1062), default `maxiter=20`,
`tol=1e-6`; same loop as `solve_yi_xiT` with `step` abstracting
`yi * phiv / calc_phil(P, T, xi)[0]` (the mid-loop ValueError contingency is
outside the scope of the convergence claims and is folded into `step`). -/
def solve_xi_yiT (step : List ℚ → List ℚ) (xi0 : List ℚ) (maxiter : ℕ)
    (tol : ℚ) : Except InnerErr (List ℚ) :=
  innerLoopRun step xi0 maxiter tol

/-- A two-component update whose predicted mole-number sums alternate
between 2 and 3 forever, so the inner loop can never meet any tolerance
below 1. -/
def stepFlip : List ℚ → List ℚ :=
  fun l => if l.getD 1 0 ≤ l.getD 0 0 then [0, 2] else [3, 0]

/-- `np.arange(a, b, s)` for `s > 0`: the values `a + i*s` strictly below
`b`, i.e. `⌈(b-a)/s⌉` of them (empty when `b ≤ a`). -/
def arange (a b s : ℚ) : List ℚ :=
  (List.range (Int.toNat ⌈(b - a) / s⌉)).map (fun i : ℕ => a + (i : ℚ) * s)

/-- `vspace = (1.0/rholist[:-1]) - (1.0/rholist[1:])`: consecutive
specific-volume spacings of a density grid. -/
def vspaceOf (rholist : List ℚ) : List ℚ :=
  List.zipWith (fun x y => 1 / x - 1 / y) rholist rholist.tail

/-- `vspaceswitch = np.where(vspace > vspacemax)[0][-1]`: the last index at
which the spacing exceeds the bound (the call site guarantees one exists). -/
def vspaceswitchOf (vspacemax : ℚ) (vspace : List ℚ) : ℕ :=
  (((List.range vspace.length).filter
      (fun i => decide (vspacemax < vspace.getD i 0))).getLast?).getD 0

/-- Local re-gridding step of `PvsRho` (calc_newyi.py lines 199-204): when
some specific-volume spacing exceeds `vspacemax`, replace the head of the
grid up to the last offending index by a uniform grid in specific-volume
space (`rholist_2 = 1/np.arange(1/rholist[vspaceswitch+1], 1/minrho,
vspacemax)[::-1]`, appended with `rholist[vspaceswitch+2:]`). -/
def refineGrid (minrho vspacemax : ℚ) (rholist : List ℚ) : List ℚ :=
  if (vspaceOf rholist).any (fun sp => decide (vspacemax < sp)) then
    (((arange
        (1 / rholist.getD (vspaceswitchOf vspacemax (vspaceOf rholist) + 1) 0)
        (1 / minrho) vspacemax).reverse).map (fun v => 1 / v)) ++
      rholist.drop (vspaceswitchOf vspacemax (vspaceOf rholist) + 2)
  else rholist

/-- `PvsRho` (calc_newyi.py lines 160-214).  `Pfun` abstracts
`eos.P(rho*Nav, T, xi)` and `maxrho` abstracts
`eos.density_max(xi, T, maxpack)`.  Builds the density grid
`np.arange(minrho, maxrho, rhoinc)`, locally re-grids in specific volume
where the spacing exceeds `vspacemax` (`refineGrid`), evaluates the
pressure, flips both arrays and returns `(vlist, Plist)`.  The result is
`none` when the grid has fewer than two points, where `np.amax` of the
empty `vspace` raises. -/
def PvsRho (Pfun : ℚ → ℚ) (maxrho minrhofrac rhoinc vspacemax : ℚ) :
    Option (List ℚ × List ℚ) :=
  let minrho := maxrho * minrhofrac
  let rholist := arange minrho maxrho rhoinc
  if rholist.length < 2 then none
  else
    let rholist1 := refineGrid minrho vspacemax rholist
    some ((rholist1.reverse).map (fun r => 1 / r), (rholist1.map Pfun).reverse)

/-- A curve with one root, exactly one extremum, and the liquid condition
false (the curve value at the root does not exceed the value at the
extremum): the configuration no classifier branch handles. -/
def curveOneRootOneExtremum : SmoothedCurve := ⟨fun _ => 0, [2], [3]⟩

/-- A curve with two roots whose value at the first root is non-negative. -/
def curveTwoRootsNonneg : SmoothedCurve := ⟨fun _ => 5, [1, 2], []⟩

/-- A curve with four roots, for the vapor-density selection with more than
three roots. -/
def curveFourRoots : SmoothedCurve := ⟨fun _ => 0, [1, 2, 3, 4], []⟩

/-- A curve with two roots and positive curve value at the first root. -/
def curveTwoRootsPos : SmoothedCurve := ⟨fun _ => 7, [2, 5], []⟩

/-- A curve with two roots and negative shifted value at the first root. -/
def curveTwoRootsNeg : SmoothedCurve := ⟨fun _ => -9, [4, 6], []⟩

/-- A curve with no roots at all (flag 3, no fluid). -/
def curveNoRoots : SmoothedCurve := ⟨fun _ => 1, [], []⟩

/-- A curve with one root and no extrema (flag 2, critical fluid). -/
def curveOneRootNoExtrema : SmoothedCurve := ⟨fun _ => 0, [1], []⟩

/-- A curve with two roots and non-negative value at the first root, on
which the vapor search assumes an ideal gas (flag 4). -/
def curveIdealGas : SmoothedCurve := ⟨fun _ => 3, [1, 9], []⟩

/-- A concrete chemical-potential abstraction returning a single NaN
fugacity coefficient, used to instantiate theorems about `calc_phiv`. -/
def constNanPhi : Option ℚ → List (Option ℚ) := fun _ => [none]

/-- C1 counterexample: the classification is not exhaustive.  With one root,
exactly one extremum and the liquid condition false, `calc_rhov` assigns no
flag at all (Python NameError); and with two roots whose first-root value is
non-negative, `calc_rhol` returns flag 1 with the reciprocal of the first
root, not the table's flag 4. -/
theorem C1_classification_cex :
    calc_rhov_coarse 0 curveOneRootOneExtremum = none ∧
    calc_rhol_coarse 0 curveTwoRootsNonneg = some (some 1, 1) ∧
    some (some (1 : ℚ), (1 : ℕ)) ≠ some (none, 4) := by
  refine ⟨?_, ?_, by simp⟩
  · norm_num [calc_rhov_coarse, curveOneRootOneExtremum, listMax]
  · norm_num [calc_rhol_coarse, curveTwoRootsNonneg]

/-- C1 (amended): over curves with at most 3 roots and at most 2 extrema,
both density searches return exactly the flag of the spec §4.3 table, except
that (a) with one root, exactly one extremum and the liquid condition false
neither search assigns a flag (modelled by `none`; Python raises NameError),
and (b) with two roots and a non-negative first-root value the liquid search
returns flag 1, not 4. -/
theorem C1_classification_flag_table (P : ℚ) (c : SmoothedCurve)
    (_hr : c.roots.length ≤ 3) (_he : c.extrema.length ≤ 2) :
    Option.map Prod.snd (calc_rhov_coarse P c) = specFlagV_amended P c ∧
    Option.map Prod.snd (calc_rhol_coarse P c) = specFlagL_amended P c := by
  clear _hr _he
  obtain ⟨Pv, roots, extrema⟩ := c
  match roots with
  | [] =>
      simp [calc_rhov_coarse, calc_rhol_coarse, specFlagV_amended,
        specFlagL_amended]
  | [r0] =>
      match extrema with
      | [] =>
          simp [calc_rhov_coarse, calc_rhol_coarse, specFlagV_amended,
            specFlagL_amended]
      | [e0] =>
          simp only [calc_rhov_coarse, calc_rhol_coarse, specFlagV_amended,
            specFlagL_amended, List.length_cons, List.length_nil, List.headI]
          constructor <;> split_ifs <;> simp_all
      | e0 :: e1 :: erest =>
          simp only [calc_rhov_coarse, calc_rhol_coarse, specFlagV_amended,
            specFlagL_amended, List.length_cons, List.length_nil, List.headI]
          constructor <;> split_ifs <;> simp_all
  | [r0, r1] =>
      simp only [calc_rhov_coarse, calc_rhol_coarse, specFlagV_amended,
        specFlagL_amended, List.length_cons, List.length_nil, List.headI]
      constructor <;> split_ifs <;> simp_all
  | r0 :: r1 :: r2 :: rrest =>
      simp [calc_rhov_coarse, calc_rhol_coarse, specFlagV_amended,
        specFlagL_amended]

/-- C1 witness: the amended table theorem applied to a concrete one-root,
no-extrema curve. -/
theorem C1_classification_flag_table_witness :
    curveOneRootNoExtrema.roots.length ≤ 3 ∧
    curveOneRootNoExtrema.extrema.length ≤ 2 ∧
    (Option.map Prod.snd (calc_rhov_coarse 0 curveOneRootNoExtrema) =
        specFlagV_amended 0 curveOneRootNoExtrema ∧
      Option.map Prod.snd (calc_rhol_coarse 0 curveOneRootNoExtrema) =
        specFlagL_amended 0 curveOneRootNoExtrema) :=
  ⟨by decide, by decide,
    C1_classification_flag_table 0 curveOneRootNoExtrema (by decide) (by decide)⟩

/-- C6 counterexample: with four roots the vapor search takes the reciprocal
of `roots[2]`, which is not the last (largest specific-volume) root. -/
theorem C6_vapor_last_root_cex :
    calc_rhov_coarse 0 curveFourRoots = some (some (1 / 3), 0) ∧
    curveFourRoots.roots.getLast?.getD 0 = 4 ∧ ((1 : ℚ) / 3) ≠ 1 / 4 := by
  refine ⟨rfl, rfl, by norm_num⟩

/-- C6 (amended): with three or more roots the coarse vapor density is the
reciprocal of the third root `roots[2]` (the last root only when there are
exactly three), and the coarse liquid density is the reciprocal of the first
root. -/
theorem C6_three_root_selection (P : ℚ) (c : SmoothedCurve) (r0 r1 r2 : ℚ)
    (rest : List ℚ) (h : c.roots = r0 :: r1 :: r2 :: rest) :
    calc_rhov_coarse P c = some (some (1 / r2), 0) ∧
    calc_rhol_coarse P c = some (some (1 / r0), 1) := by
  obtain ⟨Pv, roots, extrema⟩ := c
  simp only at h
  subst h
  exact ⟨rfl, rfl⟩

/-- C6 witness: the three-or-more-root selection applied to the concrete
four-root curve. -/
theorem C6_three_root_selection_witness :
    curveFourRoots.roots = 1 :: 2 :: 3 :: [4] ∧
    (calc_rhov_coarse 0 curveFourRoots = some (some (1 / 3), 0) ∧
      calc_rhol_coarse 0 curveFourRoots = some (some (1 / 1), 1)) :=
  ⟨rfl, C6_three_root_selection 0 curveFourRoots 1 2 3 [4] rfl⟩

/-- C7 counterexample: on a two-root curve with non-negative first-root
value the liquid search returns flag 1 with the reciprocal of the first
root — not flag 4 with NaN as the claim states for both searches. -/
theorem C7_two_root_liquid_cex :
    calc_rhol_coarse 0 curveTwoRootsPos = some (some (1 / 2), 1) ∧
    some (some ((1 : ℚ) / 2), (1 : ℕ)) ≠ some (none, 4) := by
  refine ⟨?_, by simp⟩
  norm_num [calc_rhol_coarse, curveTwoRootsPos]

/-- C7 (amended): on a two-root curve the vapor search returns flag 1 with
the reciprocal of the first root when the curve value at the first root is
negative and flag 4 with NaN density otherwise, while the liquid search
returns flag 1 with the reciprocal of the first root in both cases; neither
raises. -/
theorem C7_two_root_classification (P : ℚ) (c : SmoothedCurve) (r0 r1 : ℚ)
    (h : c.roots = [r0, r1]) :
    calc_rhov_coarse P c =
      (if c.Pv r0 + P < 0 then some (some (1 / r0), 1) else some (none, 4)) ∧
    calc_rhol_coarse P c = some (some (1 / r0), 1) := by
  obtain ⟨Pv, roots, extrema⟩ := c
  simp only at h
  subst h
  constructor
  · rfl
  · show (if Pv r0 + P < 0 then some (some (1 / r0), 1)
      else some (some (1 / r0), 1) : Option (Option ℚ × ℕ)) = _
    rw [ite_self]

/-- C7 witness: the two-root classification applied to a concrete curve with
negative shifted value at the first root. -/
theorem C7_two_root_classification_witness :
    curveTwoRootsNeg.roots = [4, 6] ∧
    (calc_rhov_coarse 2 curveTwoRootsNeg =
        (if curveTwoRootsNeg.Pv 4 + 2 < 0 then some (some (1 / 4), 1)
          else some (none, 4)) ∧
      calc_rhol_coarse 2 curveTwoRootsNeg = some (some (1 / 4), 1)) :=
  ⟨rfl, C7_two_root_classification 2 curveTwoRootsNeg 4 6 rfl⟩

/-- C5: both per-point workers convert any exception from the per-point
calculation into the NaN-filled tuple with flag 3 for both phases; the NaN
tuple has a NaN pressure and objective and a NaN composition of the input
length; and the batch map still produces one result per input. -/
theorem C5_worker_exception_policy :
    (∀ (ε : Type) (e : ε) (n : ℕ),
      phase_xiT_wrapper n (Except.error e) = nanResult n) ∧
    (∀ (ε : Type) (e : ε) (n : ℕ),
      phase_yiT_wrapper n (Except.error e) = nanResult n) ∧
    (∀ n : ℕ, (nanResult n).P = none ∧
      (nanResult n).comp = List.replicate n none ∧
      (nanResult n).flagv = 3 ∧ (nanResult n).flagl = 3 ∧
      (nanResult n).obj = none) ∧
    (∀ (ε : Type) (inputs : List (ℕ × Except ε (ℚ × List ℚ × ℕ × ℕ × ℚ))),
      (serial_job (fun a => phase_xiT_wrapper a.1 a.2) inputs).length =
        inputs.length) := by
  refine ⟨fun ε e n => rfl, fun ε e n => rfl,
    fun n => ⟨rfl, rfl, rfl, rfl, rfl⟩, fun ε inputs => ?_⟩
  simp [serial_job]

/-- C10: for every strictly negative trial pressure both outer-loop
objectives return the constant 10 and their value does not depend on the
rest of the body (the EOS, the density curve and the inner loop are never
evaluated). -/
theorem C10_negative_pressure_guard (restA restB : ℚ → ℚ) (P : ℚ)
    (h : P < 0) :
    solve_P_xiT restA P = 10 ∧ solve_P_yiT restA P = 10 ∧
    solve_P_xiT restA P = solve_P_xiT restB P ∧
    solve_P_yiT restA P = solve_P_yiT restB P := by
  unfold solve_P_xiT solve_P_yiT
  rw [if_pos h]
  simp [h]

/-- On the branches that report flag 3 or flag 4, the coarse density set by
the classifier is `np.nan`. -/
theorem calc_rhov_coarse_nan_flags (P : ℚ) (c : SmoothedCurve)
    (ρ : Option ℚ) (f : ℕ) (h : calc_rhov_coarse P c = some (ρ, f))
    (hf : f = 3 ∨ f = 4) : ρ = none := by
  unfold calc_rhov_coarse at h
  rcases hroots : c.roots with _ | ⟨r0, _ | ⟨r1, _ | ⟨r2, rrest⟩⟩⟩ <;>
    rw [hroots] at h <;> dsimp only at h <;> (try split_ifs at h) <;>
    simp only [Option.some.injEq, Prod.mk.injEq, reduceCtorEq] at h <;>
    obtain ⟨h1, h2⟩ := h <;> (try exact h1.symm) <;> omega

/-- C9: whenever the vapor classification reports flag 4 (ideal gas
assumed), `calc_phiv` does not invoke the EOS chemical potential and returns
a unit fugacity-coefficient vector together with the NaN density and flag 4;
whenever it reports flag 3 (no fluid), `calc_phiv` returns normally (no
exception) and hands the caller the NaN density with flag 3, the fugacity
being whatever the chemical-potential routine yields at NaN density. -/
theorem C9_ideal_gas_unit_fugacity
    (chempotExp : Option ℚ → List (Option ℚ)) (n : ℕ) (refine : ℚ → ℚ)
    (P : ℚ) (c : SmoothedCurve) (ρ : Option ℚ) :
    (calc_rhov_coarse P c = some (ρ, 4) →
      calc_phiv chempotExp n refine P c =
        some (List.replicate n (some 1), none, 4)) ∧
    (calc_rhov_coarse P c = some (ρ, 3) →
      calc_phiv chempotExp n refine P c = some (chempotExp none, none, 3)) := by
  constructor
  · intro h
    have hnan : ρ = none := calc_rhov_coarse_nan_flags P c ρ 4 h (Or.inr rfl)
    subst hnan
    unfold calc_phiv calc_rhov_refined
    rw [h]
    norm_num
  · intro h
    have hnan : ρ = none := calc_rhov_coarse_nan_flags P c ρ 3 h (Or.inl rfl)
    subst hnan
    unfold calc_phiv calc_rhov_refined
    rw [h]
    norm_num

/-- C9 witness: the flag-4 branch on a concrete two-root curve and the
flag-3 branch on a concrete rootless curve. -/
theorem C9_ideal_gas_unit_fugacity_witness :
    calc_rhov_coarse 0 curveIdealGas = some (none, 4) ∧
    calc_phiv constNanPhi 1 id 0 curveIdealGas =
      some (List.replicate 1 (some 1), none, 4) ∧
    calc_rhov_coarse 0 curveNoRoots = some (none, 3) ∧
    calc_phiv constNanPhi 1 id 0 curveNoRoots =
      some (constNanPhi none, none, 3) :=
  ⟨by norm_num [calc_rhov_coarse, curveIdealGas],
    (C9_ideal_gas_unit_fugacity constNanPhi 1 id 0 curveIdealGas none).1
      (by norm_num [calc_rhov_coarse, curveIdealGas]),
    by norm_num [calc_rhov_coarse, curveNoRoots],
    (C9_ideal_gas_unit_fugacity constNanPhi 1 id 0 curveNoRoots none).2
      (by norm_num [calc_rhov_coarse, curveNoRoots])⟩

/-- If a list is non-increasing between consecutive entries, all its
`np.diff` values are non-positive. -/
theorem diffList_nonpos (l : List ℚ) (h : l.Chain' (fun a b => b ≤ a)) :
    ∀ x ∈ diffList l, x ≤ 0 := by
  induction l with
  | nil => simp [diffList]
  | cons a t ih =>
      cases t with
      | nil => simp [diffList]
      | cons b t2 =>
          rw [List.chain'_cons] at h
          intro x hx
          simp only [diffList, List.tail_cons, List.zipWith_cons_cons] at hx
          rcases List.mem_cons.mp hx with hx | hx
          · subst hx
            linarith [h.1]
          · exact ih h.2 x hx

/-- When every entry of a list is non-positive, `np.argwhere(l > 0)` is
empty. -/
theorem argwherePos_eq_nil (l : List ℚ) (h : ∀ x ∈ l, x ≤ 0) :
    argwherePos l = [] := by
  unfold argwherePos
  rw [List.filter_eq_nil_iff]
  intro i hi
  have hlen : i < l.length := List.mem_range.mp hi
  have hmem : l.getD i 0 ∈ l := by
    rw [List.getD_eq_getElem _ _ hlen]
    exact List.getElem_mem hlen
  simp only [decide_eq_true_eq]
  exact not_lt.mpr (h _ hmem)

/-- C4: for a pure-component composition whose discrete pressure list is
monotonically non-increasing, `calc_Psat` takes the supercritical branch:
it returns `Psat = np.nan` (with the dummy roots `[1,1,1]`) and performs no
Maxwell-construction search. -/
theorem C4_supercritical_psat_nan (xi Plist : List ℚ)
    (hpure : xi.countP (fun x => decide (x ≠ 0)) = 1)
    (hmono : Plist.Chain' (fun a b => b ≤ a)) :
    calc_Psat_branch xi Plist = PsatOutcome.supercritical := by
  unfold calc_Psat_branch
  rw [if_neg (by simpa using hpure)]
  rw [if_pos]
  rw [argwherePos_eq_nil (diffList Plist) (diffList_nonpos Plist hmono)]
  rfl

/-- C4 witness: a concrete pure composition and strictly decreasing pressure
list land in the supercritical branch. -/
theorem C4_supercritical_psat_nan_witness :
    ([(1 : ℚ), 0].countP (fun x => decide (x ≠ 0)) = 1) ∧
    ([(3 : ℚ), 2, 2, 1].Chain' (fun a b => b ≤ a)) ∧
    calc_Psat_branch [1, 0] [3, 2, 2, 1] = PsatOutcome.supercritical :=
  ⟨by norm_num, by norm_num,
    C4_supercritical_psat_nan [1, 0] [3, 2, 2, 1] (by norm_num) (by norm_num)⟩

/-- The bracket test `tmp_dif > tmp_sum` of `calc_Prange_xi` means the two
objective values have strictly opposite sign. -/
theorem abs_bracket_sign (a b : ℚ) (h : |a + b| < |a - b|) : a * b < 0 := by
  have h2 : (a + b) * (a + b) < (a - b) * (a - b) := by
    have := mul_self_lt_mul_self (abs_nonneg (a + b)) h
    rwa [abs_mul_abs_self, abs_mul_abs_self] at this
  nlinarith

/-- Whenever the doubling loop of `calc_Prange_xi` returns successfully, the
two stored objective values have strictly opposite sign. -/
theorem prangeGo_ok_sign {σ : Type} (obj : σ → ℚ → σ × ℚ) (maxiter : ℕ) :
    ∀ (fuel z : ℕ) (s : σ) (Pa Oa : List ℚ) (r : PrangeOk),
      prangeGo obj maxiter fuel z s Pa Oa = Except.ok r →
        r.objMin * r.objMax < 0 := by
  intro fuel
  induction fuel with
  | zero =>
      intro z s Pa Oa r h
      exact Except.noConfusion h
  | succ fuel ih =>
      intro z s Pa Oa r h
      rcases Pa with _ | ⟨pLast, _ | ⟨pPrev, pRest⟩⟩ <;>
        rcases Oa with _ | ⟨oLast, _ | ⟨oPrev, oRest⟩⟩ <;>
        simp only [prangeGo] at h
      all_goals try exact Except.noConfusion h
      split_ifs at h with hbr hz
      all_goals first
        | exact ih (z + 1) _ _ _ r h
        | exact Except.noConfusion h
        | (injection h with h2
           subst h2
           exact abs_bracket_sign oPrev oLast hbr)

/-- The dead `raise ValueError` of `calc_Prange_xi`: while the invariant
`z + fuel = maxiter` holds (as it does along every real run), the loop index
`z` never equals `maxiter`, so the ValueError branch cannot fire. -/
theorem prangeGo_ne_valueError {σ : Type} (obj : σ → ℚ → σ × ℚ)
    (maxiter : ℕ) :
    ∀ (fuel z : ℕ) (s : σ) (Pa Oa : List ℚ), z + fuel = maxiter →
      prangeGo obj maxiter fuel z s Pa Oa ≠
        Except.error PrangeErr.valueError := by
  intro fuel
  induction fuel with
  | zero =>
      intro z s Pa Oa hzf hcon
      exact PrangeErr.noConfusion (Except.error.inj hcon)
  | succ fuel ih =>
      intro z s Pa Oa hzf
      rcases Pa with _ | ⟨pLast, _ | ⟨pPrev, pRest⟩⟩ <;>
        rcases Oa with _ | ⟨oLast, _ | ⟨oPrev, oRest⟩⟩ <;>
        simp only [prangeGo]
      all_goals
        try exact fun hcon => PrangeErr.noConfusion (Except.error.inj hcon)
      split_ifs with hbr hz
      · exact fun hcon => Except.noConfusion hcon
      · omega
      · exact ih (z + 1) _ _ _ (by omega)

/-- One successful step of the doubling loop: when the sign-change test
passes, the loop breaks and returns the last two pressures, their objective
values, and the linear-interpolation guess. -/
theorem prangeGo_break {σ : Type} (obj : σ → ℚ → σ × ℚ)
    (maxiter fuel z : ℕ) (s : σ) (pLast pPrev : ℚ) (Pa : List ℚ)
    (oLast oPrev : ℚ) (Oa : List ℚ)
    (h : |oPrev + oLast| < |oPrev - oLast|) :
    prangeGo obj maxiter (fuel + 1) z s (pLast :: pPrev :: Pa)
        (oLast :: oPrev :: Oa) =
      Except.ok ⟨pPrev, pLast, oPrev, oLast,
        -(oLast - (oLast - oPrev) / (pLast - pPrev) * pLast) /
          ((oLast - oPrev) / (pLast - pPrev))⟩ := by
  simp only [prangeGo]
  rw [if_pos h]

/-- With the constant objective `1` the doubling loop of `calc_Prange_xi`
never finds a sign change: it either runs out of fuel (NameError from the
unassigned `Pguess`) or would have to take the ValueError branch. -/
theorem prangeGo_const_nameError (maxiter : ℕ) :
    ∀ (fuel z : ℕ) (s : Unit) (pL pP : ℚ) (Pa Oa : List ℚ),
      prangeGo constObj maxiter fuel z s (pL :: pP :: Pa) (1 :: 1 :: Oa) =
        Except.error PrangeErr.nameError ∨
      prangeGo constObj maxiter fuel z s (pL :: pP :: Pa) (1 :: 1 :: Oa) =
        Except.error PrangeErr.valueError := by
  intro fuel
  induction fuel with
  | zero =>
      intro z s pL pP Pa Oa
      exact Or.inl rfl
  | succ fuel ih =>
      intro z s pL pP Pa Oa
      simp only [prangeGo]
      rw [if_neg (by norm_num)]
      split_ifs with hz
      · exact Or.inr rfl
      · exact ih (z + 1) s (2 * pL) pL (pP :: Pa) (1 :: Oa)

/-- C3: on every normal return of `calc_Prange_xi` the two objective values
associated with the returned pressure pair have strictly opposite sign; the
`raise ValueError` for an exhausted budget is unreachable; and on a run with
no sign change (constant objective) the function does not raise ValueError
but instead falls off the loop and hits the NameError from the unassigned
`Pguess` (calc_newyi.py line 785). -/
theorem C3_bracket_search :
    (∀ (σ : Type) (obj : σ → ℚ → σ × ℚ) (s0 : σ) (Pmin Pmax : ℚ)
        (r : PrangeOk),
      calc_Prange_xi obj s0 Pmin Pmax = Except.ok r →
        r.objMin * r.objMax < 0) ∧
    (∀ (σ : Type) (obj : σ → ℚ → σ × ℚ) (s0 : σ) (Pmin Pmax : ℚ),
      calc_Prange_xi obj s0 Pmin Pmax ≠ Except.error PrangeErr.valueError) ∧
    calc_Prange_xi constObj () 1000 2000 = Except.error PrangeErr.nameError := by
  refine ⟨?_, ?_, ?_⟩
  · intro σ obj s0 Pmin Pmax r h
    simp only [calc_Prange_xi] at h
    exact prangeGo_ok_sign obj 200 198 2 _ _ _ r h
  · intro σ obj s0 Pmin Pmax
    simp only [calc_Prange_xi]
    exact prangeGo_ne_valueError obj 200 198 2 _ _ _ (by norm_num)
  · rcases prangeGo_const_nameError 200 198 2 () 2000 1000 [] [] with h | h
    · exact h
    · exact absurd h
        (prangeGo_ne_valueError constObj 200 198 2 () _ _ (by norm_num))

/-- C3 witness: a sign-changing objective brackets at once, and the product
of the returned objective values is negative. -/
theorem C3_bracket_search_witness :
    calc_Prange_xi signObj () 1000 2000 =
      Except.ok ⟨1000, 2000, 1, -1, 1500⟩ ∧
    (⟨1000, 2000, 1, -1, 1500⟩ : PrangeOk).objMin *
      (⟨1000, 2000, 1, -1, 1500⟩ : PrangeOk).objMax < 0 := by
  have hcond : |(1 : ℚ) + -1| < |(1 : ℚ) - -1| := by
    rw [show (1 : ℚ) + -1 = 0 by norm_num, show (1 : ℚ) - -1 = 2 by norm_num,
      abs_zero, abs_pos]
    norm_num
  have h : calc_Prange_xi signObj () 1000 2000 =
      Except.ok ⟨1000, 2000, 1, -1, 1500⟩ := by
    show prangeGo signObj 200 198 2 _ [2000, 1000]
        [(signObj ((signObj () 1000).1) 2000).2, (signObj () 1000).2] = _
    have h1 : (signObj ((signObj () 1000).1) 2000).2 = -1 := by
      norm_num [signObj]
    have h2 : (signObj () 1000).2 = 1 := by
      norm_num [signObj]
    rw [h1, h2, show (198 : ℕ) = 197 + 1 from rfl]
    rw [prangeGo_break signObj 200 197 2 _ 2000 1000 [] (-1) 1 [] hcond]
    norm_num
  exact ⟨h, C3_bracket_search.1 Unit signObj () 1000 2000 _ h⟩

/-- The alternating update `stepFlip` never lets the inner composition loop
converge: starting from the guess `[1,0]` the predicted sums alternate
between 2 and 3, so the loop consumes all its fuel and exits at
`z = z₀ + fuel`. -/
theorem innerGo_stepFlip_exhausts (tol : ℚ) (htol : tol ≤ 1) :
    ∀ (fuel z : ℕ) (yi : List ℚ) (t : ℚ),
      ((yi = [1, 0] ∧ tol ≤ |2 - t|) ∨ (yi = [0, 1] ∧ tol ≤ |3 - t|)) →
      (innerGo stepFlip tol fuel z yi t).1 = z + fuel := by
  have hnormA : pynormalize [(1 : ℚ), 0] = [1, 0] := by
    norm_num [pynormalize]
  have hnormB : pynormalize [(0 : ℚ), 1] = [0, 1] := by
    norm_num [pynormalize]
  have hnormC : pynormalize [(0 : ℚ), 2] = [0, 1] := by
    norm_num [pynormalize]
  have hnormD : pynormalize [(3 : ℚ), 0] = [1, 0] := by
    norm_num [pynormalize]
  have hstepA : stepFlip [(1 : ℚ), 0] = [0, 2] := by
    norm_num [stepFlip]
  have hstepB : stepFlip [(0 : ℚ), 1] = [3, 0] := by
    norm_num [stepFlip]
  have hsumA : List.sum [(0 : ℚ), 2] = 2 := by norm_num
  have hsumB : List.sum [(3 : ℚ), 0] = 3 := by norm_num
  intro fuel
  induction fuel with
  | zero =>
      intro z yi t hinv
      simp only [innerGo]
      split_ifs <;> rfl
  | succ fuel ih =>
      intro z yi t hinv
      rcases hinv with ⟨hyi, ht⟩ | ⟨hyi, ht⟩ <;> subst hyi <;>
        simp only [innerGo]
      · rw [hnormA, hstepA, hsumA, if_neg (not_lt.mpr ht), hnormC]
        rw [ih (z + 1) [0, 1] 2 (Or.inr ⟨rfl, by norm_num; linarith⟩)]
        omega
      · rw [hnormB, hstepB, hsumB, if_neg (not_lt.mpr ht), hnormD]
        rw [ih (z + 1) [1, 0] 3 (Or.inl ⟨rfl, by norm_num; linarith⟩)]
        omega

/-- One converged pass of the inner composition loop: when the predicted
mole-number sum is within tolerance of the previous one, the loop breaks
immediately with the current normalized guess. -/
theorem innerGo_converged (step : List ℚ → List ℚ) (tol : ℚ) (fuel z : ℕ)
    (yi : List ℚ) (t : ℚ)
    (h : |(step (pynormalize yi)).sum - t| < tol) :
    innerGo step tol (fuel + 1) z yi t =
      (z, pynormalize yi, step (pynormalize yi)) := by
  simp only [innerGo]
  rw [if_pos h]

/-- With the alternating update the whole inner loop ends with exit index
`maxiter - 1` and therefore hits the NameError of the exhaustion warning. -/
theorem innerLoopRun_stepFlip (maxiter : ℕ) (hm : maxiter ≠ 0) (tol : ℚ)
    (htol : tol ≤ 1) :
    innerLoopRun stepFlip [1, 0] maxiter tol =
      Except.error InnerErr.nameError := by
  have hnorm : pynormalize [(1 : ℚ), 0] = [1, 0] := by norm_num [pynormalize]
  have hsum : List.sum [(1 : ℚ), 0] = 1 := by norm_num
  simp only [innerLoopRun]
  rw [if_neg hm, hnorm, hsum]
  rw [innerGo_stepFlip_exhausts tol htol (maxiter - 1) 0 [1, 0] 1
    (Or.inl ⟨rfl, by norm_num; linarith⟩)]
  rw [if_pos (by omega)]

/-- C8: with an update map whose predicted mole-number sum alternates
between 2 and 3, both composition inner loops exhaust their default budgets
(15 resp. 20) and, instead of logging and returning the best iterate, hit
the NameError from reading `ind_tmp` before its assignment (calc_newyi.py
line 974 resp. 1057); a guess whose prediction is already within tolerance
is returned immediately after the first pass of the loop. -/
theorem C8_inner_loop_exhaustion :
    solve_yi_xiT stepFlip [1, 0] 15 (1 / 1000000) =
      Except.error InnerErr.nameError ∧
    solve_xi_yiT stepFlip [1, 0] 20 (1 / 1000000) =
      Except.error InnerErr.nameError ∧
    solve_yi_xiT (fun l => l) [2, 2] 15 (1 / 1000000) =
      Except.ok [1 / 2, 1 / 2] := by
  have hnorm : pynormalize [(2 : ℚ), 2] = [1 / 2, 1 / 2] := by
    norm_num [pynormalize]
  have hnorm2 : pynormalize [(1 : ℚ) / 2, 1 / 2] = [1 / 2, 1 / 2] := by
    norm_num [pynormalize]
  have hsum : List.sum [(1 : ℚ) / 2, 1 / 2] = 1 := by norm_num
  refine ⟨?_, ?_, ?_⟩
  · exact innerLoopRun_stepFlip 15 (by norm_num) _ (by norm_num)
  · exact innerLoopRun_stepFlip 20 (by norm_num) _ (by norm_num)
  · simp only [solve_yi_xiT, innerLoopRun]
    rw [if_neg (by norm_num), hnorm, hsum]
    rw [show (15 : ℕ) - 1 = 13 + 1 from rfl]
    rw [innerGo_converged (fun l => l) (1 / 1000000) 13 0 [1 / 2, 1 / 2] 1
      (by rw [hnorm2, hsum]; norm_num)]
    rw [if_neg (by norm_num)]
    rw [hnorm2]

/-- C10 witness: the guard evaluated at pressure -1 with two different
abstract bodies. -/
theorem C10_negative_pressure_guard_witness :
    solve_P_xiT (fun _ => 77) (-1) = 10 ∧ solve_P_yiT (fun _ => 77) (-1) = 10 ∧
    solve_P_xiT (fun _ => 77) (-1) = solve_P_xiT (fun _ => 88) (-1) ∧
    solve_P_yiT (fun _ => 77) (-1) = solve_P_yiT (fun _ => 88) (-1) :=
  C10_negative_pressure_guard (fun _ => 77) (fun _ => 88) (-1) (by norm_num)

/-- The length of `np.arange`. -/
theorem arange_length (a b s : ℚ) :
    (arange a b s).length = Int.toNat ⌈(b - a) / s⌉ := by
  unfold arange
  rw [List.length_map, List.length_range]

/-- The entries of `np.arange` are the arithmetic progression values. -/
theorem arange_getElem (a b s : ℚ) (i : ℕ) (h : i < (arange a b s).length) :
    (arange a b s)[i] = a + (i : ℚ) * s := by
  simp only [arange, List.getElem_map, List.getElem_range]

/-- `getD` version of `arange_getElem`. -/
theorem arange_getD (a b s : ℚ) (i : ℕ) (h : i < (arange a b s).length) :
    (arange a b s).getD i 0 = a + (i : ℚ) * s := by
  rw [List.getD_eq_getElem _ 0 h]
  exact arange_getElem a b s i h

/-- Every member of `np.arange` has the arithmetic-progression form. -/
theorem arange_mem (a b s x : ℚ) (hx : x ∈ arange a b s) :
    ∃ i : ℕ, x = a + (i : ℚ) * s := by
  unfold arange at hx
  obtain ⟨i, _, h⟩ := List.mem_map.mp hx
  exact ⟨i, h.symm⟩

/-- With a non-negative step, members of `np.arange` are at least the start
value. -/
theorem arange_mem_lb (a b s x : ℚ) (hs : 0 ≤ s) (hx : x ∈ arange a b s) :
    a ≤ x := by
  obtain ⟨i, rfl⟩ := arange_mem a b s x hx
  have hpos : 0 ≤ (i : ℚ) * s := mul_nonneg (by positivity) hs
  linarith

/-- With a positive start and non-negative step, `np.arange` values are
positive. -/
theorem arange_pos (a b s x : ℚ) (ha : 0 < a) (hs : 0 ≤ s)
    (hx : x ∈ arange a b s) : 0 < x :=
  lt_of_lt_of_le ha (arange_mem_lb a b s x hs hx)

/-- With a positive step, `np.arange` is strictly increasing. -/
theorem arange_pairwise (a b s : ℚ) (hs : 0 < s) :
    (arange a b s).Pairwise (· < ·) := by
  unfold arange
  rw [List.pairwise_map]
  refine List.Pairwise.imp ?_ (List.pairwise_lt_range _)
  intro i j hij
  have hij2 : (i : ℚ) < (j : ℚ) := by exact_mod_cast hij
  have := mul_lt_mul_of_pos_right hij2 hs
  linarith

/-- Reciprocals of a reversed strictly increasing positive list are again
strictly increasing (this is the `rholist`-to-`vlist` flip of `PvsRho`). -/
theorem recip_reverse_pairwise (l : List ℚ) (hpos : ∀ x ∈ l, 0 < x)
    (hp : l.Pairwise (· < ·)) :
    ((l.reverse).map (fun v => 1 / v)).Pairwise (· < ·) := by
  refine List.pairwise_map.mpr ?_
  have h1 : l.reverse.Pairwise (fun x y => y < x) := by
    rw [List.pairwise_reverse]
    exact hp
  refine List.Pairwise.imp_of_mem ?_ h1
  intro x y hxm hym hxy
  have hy : 0 < y := hpos y (List.mem_reverse.mp hym)
  exact one_div_lt_one_div_of_lt hy hxy

/-- The `vspace` array has one entry fewer than the density grid. -/
theorem vspaceOf_length (l : List ℚ) :
    (vspaceOf l).length = l.length - 1 := by
  unfold vspaceOf
  rw [List.length_zipWith, List.length_tail]
  exact Nat.min_eq_right (Nat.sub_le _ _)

/-- When some spacing exceeds the bound, `np.where(...)[0][-1]` is a valid
index into `vspace`. -/
theorem vspaceswitchOf_lt (vspacemax : ℚ) (vspace : List ℚ)
    (h : vspace.any (fun sp => decide (vspacemax < sp)) = true) :
    vspaceswitchOf vspacemax vspace < vspace.length := by
  obtain ⟨x, hxmem, hx⟩ := List.any_eq_true.mp h
  obtain ⟨i, hi, hgx⟩ := List.mem_iff_getElem.mp hxmem
  have hifilt : i ∈ (List.range vspace.length).filter
      (fun j => decide (vspacemax < vspace.getD j 0)) := by
    refine List.mem_filter.mpr ⟨List.mem_range.mpr hi, ?_⟩
    rw [List.getD_eq_getElem _ 0 hi, hgx]
    exact hx
  have hne : (List.range vspace.length).filter
      (fun j => decide (vspacemax < vspace.getD j 0)) ≠ [] :=
    List.ne_nil_of_mem hifilt
  unfold vspaceswitchOf
  rw [List.getLast?_eq_getLast _ hne, Option.getD_some]
  have hmem := List.getLast_mem hne
  have hrange := (List.mem_filter.mp hmem).1
  exact List.mem_range.mp hrange

/-- Core invariant of the `PvsRho` re-gridding: starting from the uniform
density grid `np.arange(minrho, maxrho, rhoinc)`, the locally refined grid
is still strictly increasing and positive.  The junction is sound because
the refined head block ends exactly at `rholist[vspaceswitch+1]`, strictly
below the first retained tail entry `rholist[vspaceswitch+2]`. -/
theorem refineGrid_arange (maxrho minrho rhoinc vspacemax : ℚ)
    (hmin : 0 < minrho) (hinc : 0 < rhoinc) (hvs : 0 < vspacemax) :
    (refineGrid minrho vspacemax (arange minrho maxrho rhoinc)).Pairwise
        (· < ·) ∧
    ∀ x ∈ refineGrid minrho vspacemax (arange minrho maxrho rhoinc),
      0 < x := by
  have hLpair : (arange minrho maxrho rhoinc).Pairwise (· < ·) :=
    arange_pairwise _ _ _ hinc
  have hLpos : ∀ x ∈ arange minrho maxrho rhoinc, 0 < x :=
    fun x hx => arange_pos _ _ _ x hmin hinc.le hx
  unfold refineGrid
  by_cases hany : (vspaceOf (arange minrho maxrho rhoinc)).any
      (fun sp => decide (vspacemax < sp)) = true
  case neg =>
    rw [if_neg hany]
    exact ⟨hLpair, hLpos⟩
  case pos =>
    rw [if_pos hany]
    have hvslt := vspaceswitchOf_lt vspacemax _ hany
    rw [vspaceOf_length] at hvslt
    have hvs1 : vspaceswitchOf vspacemax
        (vspaceOf (arange minrho maxrho rhoinc)) + 1 <
        (arange minrho maxrho rhoinc).length := by omega
    have hr1 : (arange minrho maxrho rhoinc).getD
        (vspaceswitchOf vspacemax (vspaceOf (arange minrho maxrho rhoinc))
          + 1) 0 =
        minrho + ((vspaceswitchOf vspacemax
          (vspaceOf (arange minrho maxrho rhoinc)) + 1 : ℕ) : ℚ) * rhoinc :=
      arange_getD _ _ _ _ hvs1
    have hr1pos : 0 < (arange minrho maxrho rhoinc).getD
        (vspaceswitchOf vspacemax (vspaceOf (arange minrho maxrho rhoinc))
          + 1) 0 := by
      rw [hr1]
      positivity
    have hstart : 0 < 1 / (arange minrho maxrho rhoinc).getD
        (vspaceswitchOf vspacemax (vspaceOf (arange minrho maxrho rhoinc))
          + 1) 0 :=
      one_div_pos.mpr hr1pos
    have hApos : ∀ x ∈ arange
        (1 / (arange minrho maxrho rhoinc).getD
          (vspaceswitchOf vspacemax
            (vspaceOf (arange minrho maxrho rhoinc)) + 1) 0)
        (1 / minrho) vspacemax, 0 < x :=
      fun x hx => arange_pos _ _ _ x hstart hvs.le hx
    have hApair := arange_pairwise
      (1 / (arange minrho maxrho rhoinc).getD
        (vspaceswitchOf vspacemax
          (vspaceOf (arange minrho maxrho rhoinc)) + 1) 0)
      (1 / minrho) vspacemax hvs
    have hBpair := recip_reverse_pairwise _ hApos hApair
    have hBpos : ∀ x ∈ ((arange
        (1 / (arange minrho maxrho rhoinc).getD
          (vspaceswitchOf vspacemax
            (vspaceOf (arange minrho maxrho rhoinc)) + 1) 0)
        (1 / minrho) vspacemax).reverse).map (fun v => 1 / v), 0 < x := by
      intro x hx
      simp only [List.mem_map, List.mem_reverse] at hx
      obtain ⟨y, hy, rfl⟩ := hx
      exact one_div_pos.mpr (hApos y hy)
    have hBle : ∀ x ∈ ((arange
        (1 / (arange minrho maxrho rhoinc).getD
          (vspaceswitchOf vspacemax
            (vspaceOf (arange minrho maxrho rhoinc)) + 1) 0)
        (1 / minrho) vspacemax).reverse).map (fun v => 1 / v),
        x ≤ (arange minrho maxrho rhoinc).getD
          (vspaceswitchOf vspacemax
            (vspaceOf (arange minrho maxrho rhoinc)) + 1) 0 := by
      intro x hx
      simp only [List.mem_map, List.mem_reverse] at hx
      obtain ⟨y, hy, rfl⟩ := hx
      have h1 := arange_mem_lb _ _ _ y hvs.le hy
      calc 1 / y ≤ 1 / (1 / (arange minrho maxrho rhoinc).getD
            (vspaceswitchOf vspacemax
              (vspaceOf (arange minrho maxrho rhoinc)) + 1) 0) :=
              one_div_le_one_div_of_le hstart h1
        _ = _ := one_div_one_div _
    have hCpair : ((arange minrho maxrho rhoinc).drop
        (vspaceswitchOf vspacemax
          (vspaceOf (arange minrho maxrho rhoinc)) + 2)).Pairwise (· < ·) :=
      hLpair.sublist (List.drop_sublist _ _)
    have hCpos : ∀ y ∈ (arange minrho maxrho rhoinc).drop
        (vspaceswitchOf vspacemax
          (vspaceOf (arange minrho maxrho rhoinc)) + 2), 0 < y :=
      fun y hy => hLpos y (List.mem_of_mem_drop hy)
    have hClb : ∀ y ∈ (arange minrho maxrho rhoinc).drop
        (vspaceswitchOf vspacemax
          (vspaceOf (arange minrho maxrho rhoinc)) + 2),
        minrho + ((vspaceswitchOf vspacemax
          (vspaceOf (arange minrho maxrho rhoinc)) + 2 : ℕ) : ℚ) * rhoinc
          ≤ y := by
      intro y hy
      obtain ⟨i, hi, hgy⟩ := List.mem_iff_getElem.mp hy
      rw [List.getElem_drop] at hgy
      have hlt : vspaceswitchOf vspacemax
          (vspaceOf (arange minrho maxrho rhoinc)) + 2 + i <
          (arange minrho maxrho rhoinc).length := by
        have := hi
        rw [List.length_drop] at this
        omega
      rw [arange_getElem _ _ _ _ hlt] at hgy
      rw [← hgy]
      have hcast : ((vspaceswitchOf vspacemax
          (vspaceOf (arange minrho maxrho rhoinc)) + 2 : ℕ) : ℚ) ≤
          ((vspaceswitchOf vspacemax
            (vspaceOf (arange minrho maxrho rhoinc)) + 2 + i : ℕ) : ℚ) := by
        exact_mod_cast Nat.le_add_right _ _
      have := mul_le_mul_of_nonneg_right hcast hinc.le
      linarith
    refine ⟨List.pairwise_append.mpr ⟨hBpair, hCpair, ?_⟩, ?_⟩
    · intro x hx y hy
      have h1 := hBle x hx
      have h2 := hClb y hy
      rw [hr1] at h1
      have hcast : ((vspaceswitchOf vspacemax
          (vspaceOf (arange minrho maxrho rhoinc)) + 1 : ℕ) : ℚ) <
          ((vspaceswitchOf vspacemax
            (vspaceOf (arange minrho maxrho rhoinc)) + 2 : ℕ) : ℚ) := by
        exact_mod_cast Nat.lt_succ_self _
      have := mul_lt_mul_of_pos_right hcast hinc
      linarith
    · intro x hx
      rcases List.mem_append.mp hx with hx | hx
      · exact hBpos x hx
      · exact hCpos x hx

/-- C2: whenever `PvsRho` returns (grid of at least two points, positive
maximum density, positive `minrhofrac`, positive density increment and
specific-volume bound), the returned specific-volume array is strictly
increasing between every pair of consecutive entries; nothing is claimed
about the pressure array. -/
theorem C2_PvsRho_vlist_increasing (Pfun : ℚ → ℚ)
    (maxrho minrhofrac rhoinc vspacemax : ℚ) (vlist Plist : List ℚ)
    (hmax : 0 < maxrho) (hfrac : 0 < minrhofrac) (hinc : 0 < rhoinc)
    (hvs : 0 < vspacemax)
    (hres : PvsRho Pfun maxrho minrhofrac rhoinc vspacemax =
      some (vlist, Plist)) :
    vlist.Chain' (· < ·) := by
  have hmin : 0 < maxrho * minrhofrac := mul_pos hmax hfrac
  simp only [PvsRho] at hres
  by_cases hlen : (arange (maxrho * minrhofrac) maxrho rhoinc).length < 2
  · rw [if_pos hlen] at hres
    exact Option.noConfusion hres
  · rw [if_neg hlen] at hres
    injection hres with h2
    injection h2 with hv hP
    subst hv
    obtain ⟨hpair, hpos⟩ :=
      refineGrid_arange maxrho (maxrho * minrhofrac) rhoinc vspacemax hmin
        hinc hvs
    exact (recip_reverse_pairwise _ hpos hpair).chain'

/-- C2 witness: a concrete grid (maximum density 3, `minrhofrac` 1/3,
increment 1, spacing bound 1) whose returned specific-volume array
`[1/2, 1]` is strictly increasing. -/
theorem C2_PvsRho_vlist_increasing_witness :
    PvsRho (fun _ => 0) 3 (1 / 3) 1 1 = some ([1 / 2, 1], [0, 0]) ∧
    List.Chain' (· < ·) [(1 : ℚ) / 2, 1] := by
  have harange : arange ((3 : ℚ) * (1 / 3)) 3 1 = [1, 2] := by
    unfold arange
    rw [show ⌈((3 : ℚ) - 3 * (1 / 3)) / 1⌉ = 2 by norm_num]
    rw [show Int.toNat 2 = 2 from rfl]
    rw [show List.range 2 = [0, 1] from rfl]
    norm_num
  have hvsp : vspaceOf [(1 : ℚ), 2] = [1 / 2] := by
    unfold vspaceOf
    norm_num
  have hany : (vspaceOf [(1 : ℚ), 2]).any
      (fun sp => decide ((1 : ℚ) < sp)) = false := by
    rw [hvsp]
    simp only [List.any_cons, List.any_nil, Bool.or_false]
    rw [decide_eq_false (by norm_num)]
  have hrefine : refineGrid ((3 : ℚ) * (1 / 3)) 1 [1, 2] = [1, 2] := by
    unfold refineGrid
    rw [if_neg (by rw [hany]; exact Bool.false_ne_true)]
  have hPv : PvsRho (fun _ => 0) 3 (1 / 3) 1 1 =
      some ([1 / 2, 1], [0, 0]) := by
    simp only [PvsRho]
    rw [harange]
    rw [if_neg (by norm_num)]
    rw [hrefine]
    norm_num
  exact ⟨hPv, C2_PvsRho_vlist_increasing (fun _ => 0) 3 (1 / 3) 1 1
    [1 / 2, 1] [0, 0] (by norm_num) (by norm_num) (by norm_num) (by norm_num)
    hPv⟩

end Despasito
